import Mathlib

/-!
Shallow embedding of `src/cloudwatch/cloudWatchMetrics.py`.

Modelling conventions:
* `datetime` instants are integers (seconds since the Unix epoch, UTC).
  The script compares and subtracts timezone-aware datetimes, which is
  order-isomorphic to integer seconds; `datetime.fromtimestamp(0, UTC())`
  is `0`.  `timedelta` values are integer second counts.
* A raised-and-uncaught Python exception is `none` / a `none`-carrying
  result; a raised `BotoServerError` inside `m.query` is the `none` case
  of `Series.queryResult`.
* A Python `dict` is an insertion-ordered association list with
  overwrite-on-update (`setField`).  The composite records built by
  `transposeMetrics` hold the two fixed keys `'timestamp'` and
  `'instance'` as structure fields and the metric fields as the
  association list `fields`; this is faithful as long as no metric is
  literally named `timestamp` or `instance`, which holds for every EC2
  metric this script ingests (see `JOB_CONFIG` in the source).
  The `'timestamp'` value is `metric.timestamp.isoformat()`, an injective
  image of the instant, so we keep the instant itself.
-/

/-- `UPDATE_INTERVAL = 300` (seconds), the realtime cadence. -/
def UPDATE_INTERVAL : Int := 300

/-- `REPORTING_INTERVAL = 60` (seconds between fetched data points). -/
def REPORTING_INTERVAL : Int := 60

/-- `DELAY = 600` (realtime safety delay, seconds). -/
def DELAY : Int := 600

/-- `MAX_DATAPOINTS_PER_QUERY = 1440` (CloudWatch per-query point ceiling). -/
def MAX_DATAPOINTS_PER_QUERY : Int := 1440

/-- `MetricRecord` class: one CloudWatch sample held as
`(timestamp, instance, metric_name, metric_value)`.  `instance` is a Lean
keyword, so the field is `instance_`; metric values are opaque numbers. -/
structure MetricRecord where
  timestamp : Int
  instance_ : String
  metric_name : String
  metric_value : Int
deriving DecidableEq, Repr

/-- One composite record built by `transposeMetrics`: the Python dict
`{'timestamp': ts.isoformat(), 'instance': inst, metric_1: v_1, ...}`. -/
structure CompositeRecord where
  timestamp : Int
  instance_ : String
  fields : List (String × Int)
deriving DecidableEq, Repr

/-- Python dict assignment `d[k] = v`: overwrite the binding of `k` if it
exists, otherwise append it. -/
def setField : List (String × Int) → String → Int → List (String × Int)
  | [], k, v => [(k, v)]
  | (k', v') :: rest, k, v =>
      if k' = k then (k, v) :: rest else (k', v') :: setField rest k v

/-- Python dict lookup `d.get(k)`. -/
def getField (k : String) : List (String × Int) → Option Int
  | [] => none
  | (k', v') :: rest => if k' = k then some v' else getField k rest

/-- The loop of `transposeMetrics` (source lines 230-241).  State:
remaining input, `current_time`, `current_record` (`none` = Python
`None`), and the accumulated `tranposed_metrics`.  Result `none` models
the uncaught `TypeError` from `current_record[...] = v` when
`current_record is None`.  Note the source returns the accumulator as
soon as the input is exhausted: the trailing open record is NOT appended. -/
def transposeLoop : List MetricRecord → Int → Option CompositeRecord →
    List CompositeRecord → Option (List CompositeRecord)
  | [], _, _, acc => some acc
  | m :: rest, current_time, current_record, acc =>
      if current_time < m.timestamp then
        let acc' := match current_record with
          | some r => acc ++ [r]
          | none => acc
        transposeLoop rest m.timestamp
          (some ⟨m.timestamp, m.instance_, setField [] m.metric_name m.metric_value⟩) acc'
      else
        match current_record with
        | none => none
        | some r =>
            transposeLoop rest current_time
              (some ⟨r.timestamp, r.instance_, setField r.fields m.metric_name m.metric_value⟩) acc

/-- `transposeMetrics` (source lines 210-243): fold the time-ordered
sample list into composite records, starting from
`current_time = datetime.fromtimestamp(0, UTC())` and
`current_record = None`. -/
def transposeMetrics (metrics : List MetricRecord) : Option (List CompositeRecord) :=
  transposeLoop metrics 0 none []

/-- One datapoint returned by `m.query(start, end, 'Average', period)`. -/
structure Datapoint where
  Timestamp : Int
  Average : Int
deriving DecidableEq, Repr

/-- One CloudWatch metric series as seen by `queryMetricRecords`.
`dimensions_InstanceId = some i` models `'InstanceId' in m.dimensions`
with `m.dimensions['InstanceId'][0] = i` (boto dimension-value lists are
nonempty); `queryResult = none` models `m.query` raising
`BotoServerError`. -/
structure Series where
  name : String
  dimensions_InstanceId : Option String
  queryResult : Option (List Datapoint)
deriving DecidableEq, Repr

/-- Stable insertion of a sample into a timestamp-sorted list:
an element is placed after every element with a `≤` timestamp. -/
def insertByTime (m : MetricRecord) : List MetricRecord → List MetricRecord
  | [] => [m]
  | x :: xs => if m.timestamp < x.timestamp then m :: x :: xs else x :: insertByTime m xs

/-- `metric_records.sort(key=lambda r: r.timestamp)`: Python's sort is the
stable ascending sort by the key, whose result this stable insertion sort
computes. -/
def sortByTime (l : List MetricRecord) : List MetricRecord :=
  l.foldl (fun acc m => insertByTime m acc) []

/-- The accumulation loop of `queryMetricRecords` (source lines 192-204):
series without an `InstanceId` dimension are skipped; a `BotoServerError`
from any retained series propagates, discarding everything gathered so
far (`none`). -/
def collectRecords : List Series → Option (List MetricRecord)
  | [] => some []
  | m :: rest =>
      match m.dimensions_InstanceId with
      | none => collectRecords rest
      | some inst =>
          match m.queryResult with
          | none => none
          | some dps =>
              match collectRecords rest with
              | none => none
              | some others =>
                  some (dps.map (fun dp => ⟨dp.Timestamp, inst, m.name, dp.Average⟩) ++ others)

/-- `queryMetricRecords` (source lines 187-207): gather every retained
series' datapoints and return them sorted by timestamp; `none` models an
uncaught `BotoServerError`. -/
def queryMetricRecords (metrics : List Series) : Option (List MetricRecord) :=
  (collectRecords metrics).map sortByTime

/-- Observable outcome of one scheduler cycle body (the `try` block of
source lines 267-285 / 309-328): either the batch was uploaded (carrying
the composite records and the sink's HTTP status, which is printed when
it is not 202), or a `BotoServerError` was caught and logged. -/
inductive CycleOutcome where
  | uploaded : List CompositeRecord → Int → CycleOutcome
  | botoCaught : CycleOutcome
deriving DecidableEq, Repr

/-- Is the outcome an upload? -/
def CycleOutcome.isUpload : CycleOutcome → Bool
  | .uploaded _ _ => true
  | .botoCaught => false

/-- One fetch-transpose-upload cycle body (`try ... except BotoServerError`
of `runHistorical`, source lines 267-285).  `upload` abstracts
`engine_client.upload` (returning the HTTP status); `none` models an
exception other than `BotoServerError` escaping the handler (the
transposer's `TypeError`). -/
def cycleBody (metrics : List Series) (upload : List CompositeRecord → Int) :
    Option CycleOutcome :=
  match queryMetricRecords metrics with
  | none => some .botoCaught
  | some mrs =>
      match transposeMetrics mrs with
      | none => none
      | some recs => some (.uploaded recs (upload recs))

/-- `calculateIntervalBetweenQueries` (source lines 176-184): the maximum
window length, in seconds, of one historical query. -/
def calculateIntervalBetweenQueries (reporting_interval : Int) : Int :=
  MAX_DATAPOINTS_PER_QUERY * reporting_interval

/-- The cursor loop of `runHistorical` (source lines 252-263), window
part only: from cursor `s`, the next window is
`[s, min (s + delta) end_date)` and the loop breaks when it is empty.
Structural fuel stands in for the unbounded `while True`; every use
supplies fuel that is sufficient whenever `delta ≥ 1` (each iteration
either advances the cursor by at least one second or is the last). -/
def genWindowsF : Nat → Int → Int → Int → List (Int × Int)
  | 0, _, _, _ => []
  | fuel + 1, delta, s, end_date =>
      let e := min (s + delta) end_date
      if s = e then [] else (s, e) :: genWindowsF fuel delta e end_date

/-- The sequence of query windows the historical loop runs for a given
step `delta`, with fuel sufficient for any `delta ≥ 1`. -/
def windowsLoop (delta start_date end_date : Int) : List (Int × Int) :=
  genWindowsF ((end_date - start_date).toNat + 2) delta start_date end_date

/-- The query windows of `runHistorical`, whose step is
`calculateIntervalBetweenQueries(REPORTING_INTERVAL)`. -/
def histWindows (start_date end_date : Int) : List (Int × Int) :=
  windowsLoop (calculateIntervalBetweenQueries REPORTING_INTERVAL) start_date end_date

/-- `runHistorical` (source lines 246-285): the cursor loop running one
`cycleBody` per window.  `env i` is the series list
`cloudwatch_conn.list_metrics(namespace='AWS/EC2')` returns in cycle `i`;
the result pairs each window with its cycle's outcome, `none` modelling
an uncaught exception aborting the run. -/
def runHistGo : Nat → (Nat → List Series) → (List CompositeRecord → Int) →
    Int → Int → Nat → Option (List ((Int × Int) × CycleOutcome))
  | 0, _, _, _, _, _ => some []
  | fuel + 1, env, upload, cursor, end_date, i =>
      let e := min (cursor + calculateIntervalBetweenQueries REPORTING_INTERVAL) end_date
      if cursor = e then some []
      else
        match cycleBody (env i) upload with
        | none => none
        | some oc =>
            match runHistGo fuel env upload e end_date (i + 1) with
            | none => none
            | some rest => some (((cursor, e), oc) :: rest)

/-- `runHistorical` with the same (sufficient) fuel as `histWindows`. -/
def runHistorical (env : Nat → List Series) (upload : List CompositeRecord → Int)
    (start_date end_date : Int) : Option (List ((Int × Int) × CycleOutcome)) :=
  runHistGo ((end_date - start_date).toNat + 2) env upload start_date end_date 0

/-- The realtime cursor (source lines 296-305): `now j` is the `j`-th
value `datetime.utcnow()` returns at the window-forming call sites
(line 298 for `j = 0`, line 304 of iteration `j - 1` for `j ≥ 1`).
`realtimeEnd now i` is the value of the variable `end` entering cycle
`i`'s query. -/
def realtimeEnd (now : Nat → Int) : Nat → Int
  | 0 => now 0 - DELAY - UPDATE_INTERVAL
  | i + 1 => now (i + 1) - DELAY

/-- The window `[start, end)` queried by realtime cycle `i`
(source lines 303-311). -/
def realtimeWindow (now : Nat → Int) (i : Nat) : Int × Int :=
  (realtimeEnd now i, realtimeEnd now (i + 1))

/-- Python `timedelta.seconds`: a timedelta of `total` seconds is
normalized to `days * 86400 + seconds` with `0 ≤ seconds < 86400`, so
`.seconds` is `total mod 86400` (Lean's `Int.emod` agrees with Python's
`%` for a positive modulus). -/
def timedeltaSeconds (total : Int) : Int := total % 86400

/-- The sleep computation of `runRealtime` (source lines 330-333):
`duration = now - delay - end; sleep_time = max(UPDATE_INTERVAL -
duration.seconds, 0)`, where `endVal` is the variable `end` of the
just-finished cycle and `now2` the fresh `datetime.utcnow()` of
line 330. -/
def realtimeSleepTime (endVal now2 : Int) : Int :=
  max (UPDATE_INTERVAL - timedeltaSeconds (now2 - DELAY - endVal)) 0

/-- `partitions s e ws`: the windows `ws` are consecutive, nonempty,
start at `s`, and end exactly at `e` — i.e. they partition the half-open
interval `[s, e)` with no gap or overlap. -/
def partitions : Int → Int → List (Int × Int) → Bool
  | s, e, [] => decide (s = e)
  | s, e, w :: ws => decide (w.1 = s) && decide (w.1 < w.2) && partitions w.2 e ws

/-- Decompose one composite record back into per-metric observations
(the record "treated as a singleton group of observations"). -/
def recordToObs (r : CompositeRecord) : List MetricRecord :=
  r.fields.map (fun f => ⟨r.timestamp, r.instance_, f.1, f.2⟩)

/-- Decompose a transposed batch back into a flat observation list. -/
def regroup (recs : List CompositeRecord) : List MetricRecord :=
  (recs.map recordToObs).flatten

/-- A composite record instrumented with the list of observations that
contributed a field to it (every sample the loop wrote into the dict,
in write order). -/
structure CompositeRecordC where
  timestamp : Int
  instance_ : String
  fields : List (String × Int)
  contribs : List MetricRecord
deriving DecidableEq, Repr

/-- Forget the contributor instrumentation. -/
def eraseContribs (r : CompositeRecordC) : CompositeRecord :=
  ⟨r.timestamp, r.instance_, r.fields⟩

/-- `transposeLoop` instrumented with contributors: identical control
flow, with each sample that is written into the current record also
appended to its `contribs`. -/
def transposeLoopC : List MetricRecord → Int → Option CompositeRecordC →
    List CompositeRecordC → Option (List CompositeRecordC)
  | [], _, _, acc => some acc
  | m :: rest, current_time, current_record, acc =>
      if current_time < m.timestamp then
        let acc' := match current_record with
          | some r => acc ++ [r]
          | none => acc
        transposeLoopC rest m.timestamp
          (some ⟨m.timestamp, m.instance_, setField [] m.metric_name m.metric_value, [m]⟩) acc'
      else
        match current_record with
        | none => none
        | some r =>
            transposeLoopC rest current_time
              (some ⟨r.timestamp, r.instance_,
                     setField r.fields m.metric_name m.metric_value, r.contribs ++ [m]⟩) acc

/-- `transposeMetrics` instrumented with contributors. -/
def transposeMetricsC (metrics : List MetricRecord) : Option (List CompositeRecordC) :=
  transposeLoopC metrics 0 none []

/-- The input list is nondecreasing in timestamp ("sorted by date",
the documented precondition of `transposeMetrics`). -/
def sortedByTime : List MetricRecord → Bool
  | [] => true
  | [_] => true
  | a :: b :: rest => decide (a.timestamp ≤ b.timestamp) && sortedByTime (b :: rest)

/-- Any two observations sharing a timestamp share an instance. -/
def uniformInst (ms : List MetricRecord) : Prop :=
  ∀ a ∈ ms, ∀ b ∈ ms, a.timestamp = b.timestamp → a.instance_ = b.instance_

instance (ms : List MetricRecord) : Decidable (uniformInst ms) := by
  unfold uniformInst; infer_instance

/-- The value of the chronologically last observation in `l` carrying
timestamp `t` and metric name `n`, continuing from default `d`. -/
def lastValueFrom (t : Int) (n : String) (l : List MetricRecord) (d : Option Int) : Option Int :=
  l.foldl (fun acc m =>
    if m.timestamp = t ∧ m.metric_name = n then some m.metric_value else acc) d

/-- The value of the last observation in `l` at `(t, n)`, if any. -/
def lastValue (t : Int) (n : String) (l : List MetricRecord) : Option Int :=
  lastValueFrom t n l none

/-! ### Shared lemmas -/

theorem sortedByTime_cons {a : MetricRecord} {l : List MetricRecord}
    (h : sortedByTime (a :: l) = true) :
    sortedByTime l = true ∧ ∀ x ∈ l, a.timestamp ≤ x.timestamp := by
  induction l generalizing a with
  | nil => exact ⟨rfl, by simp⟩
  | cons b l' ih =>
      simp only [sortedByTime, Bool.and_eq_true, decide_eq_true_eq] at h
      obtain ⟨hab, hbl⟩ := h
      obtain ⟨hs', hall⟩ := ih hbl
      refine ⟨hbl, ?_⟩
      intro x hx
      rcases List.mem_cons.mp hx with hxb | hx'
      · exact hxb ▸ hab
      · exact le_trans hab (hall x hx')

theorem getField_setField (n : String) (f : List (String × Int)) (k : String) (v : Int) :
    getField n (setField f k v) = if k = n then some v else getField n f := by
  induction f with
  | nil => simp [setField, getField]
  | cons p rest ih =>
      by_cases hk : p.1 = k
      · simp only [setField, hk, if_pos rfl]
        by_cases hn : k = n
        · simp [getField, hn]
        · simp [getField, hn, hk]
      · simp only [setField, if_neg hk]
        by_cases hn : p.1 = n
        · have : ¬ (k = n) := fun h => hk (h ▸ hn)
          simp [getField, hn, this]
        · simp [getField, hn, ih]

theorem lastValueFrom_cons (t : Int) (n : String) (m : MetricRecord)
    (l : List MetricRecord) (d : Option Int) :
    lastValueFrom t n (m :: l) d =
      lastValueFrom t n l
        (if m.timestamp = t ∧ m.metric_name = n then some m.metric_value else d) := rfl

theorem lastValueFrom_nomatch {t : Int} {n : String} {l : List MetricRecord}
    (h : ∀ y ∈ l, y.timestamp ≠ t) (d : Option Int) :
    lastValueFrom t n l d = d := by
  induction l generalizing d with
  | nil => rfl
  | cons m rest ih =>
      rw [lastValueFrom_cons]
      have hm : ¬ (m.timestamp = t ∧ m.metric_name = n) :=
        fun hc => h m (List.mem_cons_self m rest) hc.1
      rw [if_neg hm]
      exact ih (fun y hy => h y (List.mem_cons_of_mem m hy)) d

theorem lastValue_cons_skip {t : Int} (n : String) {m : MetricRecord}
    (l : List MetricRecord) (h : m.timestamp ≠ t) :
    lastValue t n (m :: l) = lastValue t n l := by
  unfold lastValue
  rw [lastValueFrom_cons, if_neg (fun hc => h hc.1)]

theorem lastValue_cons_open {m : MetricRecord} {rest : List MetricRecord}
    {xts : Int} {n : String} {v : Int}
    (h : (xts = m.timestamp ∧
            lastValueFrom m.timestamp n rest
              (getField n (setField [] m.metric_name m.metric_value)) = some v) ∨
         (m.timestamp < xts ∧ lastValue xts n rest = some v)) :
    lastValue xts n (m :: rest) = some v := by
  rcases h with ⟨hts, hlast⟩ | ⟨hlt, hlast⟩
  · subst hts
    unfold lastValue
    rw [lastValueFrom_cons]
    rw [getField_setField] at hlast
    by_cases hn : m.metric_name = n
    · rw [if_pos ⟨rfl, hn⟩]
      rw [if_pos hn] at hlast
      exact hlast
    · rw [if_neg (fun hc => hn hc.2)]
      rw [if_neg hn] at hlast
      exact hlast
  · rw [lastValue_cons_skip n rest (by omega)]
    exact hlast

theorem lastValueFrom_cons_assign {m : MetricRecord} {ct : Int}
    (rest : List MetricRecord) (n : String) (d : List (String × Int))
    (hts : m.timestamp = ct) :
    lastValueFrom ct n (m :: rest) (getField n d) =
      lastValueFrom ct n rest (getField n (setField d m.metric_name m.metric_value)) := by
  rw [lastValueFrom_cons, getField_setField]
  by_cases hn : m.metric_name = n
  · rw [if_pos ⟨hts, hn⟩, if_pos hn]
  · rw [if_neg (fun hc => hn hc.2), if_neg hn]

theorem transposeLoop_some_isSome : ∀ (ms : List MetricRecord) (ct : Int)
    (r : CompositeRecord) (acc : List CompositeRecord),
    (transposeLoop ms ct (some r) acc).isSome = true := by
  intro ms
  induction ms with
  | nil => intro ct r acc; rfl
  | cons m rest ih =>
      intro ct r acc
      unfold transposeLoop
      by_cases h : ct < m.timestamp
      · rw [if_pos h]; exact ih _ _ _
      · rw [if_neg h]; exact ih _ _ _

/-! ### Claim theorems -/

/-- Claim C9: `transposeMetrics` never dereferences an uninitialized
current record when every input timestamp is strictly later than the
Unix epoch: the sentinel `current_time` starts at the epoch, so the
first observation opens a record before any field is assigned, and the
`current_record = None` branch is unreachable thereafter. -/
theorem transposeMetrics_total_posTimestamps :
    ∀ ms : List MetricRecord, (∀ m ∈ ms, 0 < m.timestamp) →
      (transposeMetrics ms).isSome = true := by
  intro ms h
  cases ms with
  | nil => rfl
  | cons m rest =>
      unfold transposeMetrics transposeLoop
      rw [if_pos (h m (List.mem_cons_self m rest))]
      exact transposeLoop_some_isSome _ _ _ _

/-- Witness for C9 at a concrete input. -/
theorem transposeMetrics_total_posTimestamps_witness :
    (transposeMetrics [⟨1, "i-1", "CPUUtilization", 10⟩]).isSome = true :=
  transposeMetrics_total_posTimestamps [⟨1, "i-1", "CPUUtilization", 10⟩] (by decide)

/-- Claim C1 (failing evaluation): on the sorted Scenario-A input with the
two distinct timestamps `1` and `2`, `transposeMetrics` returns only the
record for timestamp `1`; the trailing open record for timestamp `2` is
never appended after the loop (source line 243 returns without a final
flush), so `k = 2` distinct timestamps yield 1 record, not 2. -/
theorem transposeMetrics_dropsTrailingRecord_scenarioA :
    transposeMetrics
        [⟨1, "i1", "CPU", 10⟩, ⟨1, "i1", "Net", 5⟩, ⟨2, "i1", "CPU", 20⟩] =
      some [⟨1, "i1", [("CPU", 10), ("Net", 5)]⟩] ∧
    ((transposeMetrics
        [⟨1, "i1", "CPU", 10⟩, ⟨1, "i1", "Net", 5⟩, ⟨2, "i1", "CPU", 20⟩]).getD []).length = 1 := by
  decide

/-- Claim C8 (failing evaluation): re-running `transposeMetrics` on its
own already-grouped output is not a no-op.  The grouped output of
`[(1,i,CPU,10), (2,i,CPU,20)]` is the single record `{1, i, CPU: 10}`
(the trailing record is already dropped); decomposing it back into
observations and transposing again yields `[]`, not the input batch —
the missing end-of-sequence flush loses the last record on every pass. -/
theorem transposeMetrics_regroup_notIdempotent :
    transposeMetrics [⟨1, "i", "CPU", 10⟩, ⟨2, "i", "CPU", 20⟩] =
      some [⟨1, "i", [("CPU", 10)]⟩] ∧
    transposeMetrics (regroup [⟨1, "i", [("CPU", 10)]⟩]) = some [] ∧
    (some ([] : List CompositeRecord) ≠ some [⟨1, "i", [("CPU", 10)]⟩]) := by
  decide
theorem genWindowsF_succ (fuel : Nat) (delta s e : Int) :
    genWindowsF (fuel + 1) delta s e =
      if s = min (s + delta) e then []
      else (s, min (s + delta) e) :: genWindowsF fuel delta (min (s + delta) e) e := rfl

theorem windows_core : ∀ (fuel : Nat) (delta s e : Int), 0 < delta → s < e →
    (e - s).toNat ≤ fuel + 1 →
    partitions s e (genWindowsF (fuel + 1) delta s e) = true ∧
    ∀ w ∈ genWindowsF (fuel + 1) delta s e, w.2 - w.1 ≤ delta := by
  intro fuel
  induction fuel with
  | zero =>
      intro delta s e hd hse hf
      -- one unit of fuel: the whole range fits in a single window
      have he : min (s + delta) e = e := by omega
      have hne : ¬ (s = e) := by omega
      have hval : genWindowsF 1 delta s e = [(s, e)] := by
        rw [genWindowsF_succ, he, if_neg hne]
        rfl
      rw [hval]
      constructor
      · simp [partitions, hse]
      · intro w hw
        rcases List.mem_cons.mp hw with hw1 | hw2
        · subst hw1; simp; omega
        · simp at hw2
  | succ n ih =>
      intro delta s e hd hse hf
      by_cases hle : e ≤ s + delta
      · -- last window
        have he : min (s + delta) e = e := by omega
        have hne : ¬ (s = e) := by omega
        have h2 : min (e + delta) e = e := by omega
        have hval : genWindowsF (n + 1 + 1) delta s e = [(s, e)] := by
          rw [genWindowsF_succ, he, if_neg hne, genWindowsF_succ, h2, if_pos rfl]
        rw [hval]
        constructor
        · simp [partitions, hse]
        · intro w hw
          rcases List.mem_cons.mp hw with hw1 | hw2
          · subst hw1; simp; omega
          · simp at hw2
      · -- full-length window, recurse
        have he : min (s + delta) e = s + delta := by omega
        have hne : ¬ (s = s + delta) := by omega
        have hval : genWindowsF (n + 1 + 1) delta s e =
            (s, s + delta) :: genWindowsF (n + 1) delta (s + delta) e := by
          rw [genWindowsF_succ, he, if_neg hne]
        rw [hval]
        have hrec := ih delta (s + delta) e hd (by omega) (by omega)
        constructor
        · simp only [partitions, Bool.and_eq_true, decide_eq_true_eq, hrec.1,
            and_true, true_and]
          omega
        · intro w hw
          rcases List.mem_cons.mp hw with hw1 | hw2
          · subst hw1; simp
          · exact hrec.2 w hw2

/-- Claim C4: for every ceiling `C > 0` and granularity `g > 0`, the loop
of `runHistorical` run with step `L = C * g` chops `[s, e)` (for `s < e`)
into consecutive windows that partition `[s, e)` exactly — each window's
start is the previous window's end, the first starts at `s`, the last
ends at `e`, no gap or overlap — and every window has length at most
`L`.  (`runHistorical` itself uses
`L = calculateIntervalBetweenQueries REPORTING_INTERVAL
   = MAX_DATAPOINTS_PER_QUERY * REPORTING_INTERVAL`.) -/
theorem windowPlanner_partition :
    ∀ C g s e : Int, 0 < C → 0 < g → s < e →
      partitions s e (windowsLoop (C * g) s e) = true ∧
      ∀ w ∈ windowsLoop (C * g) s e, w.2 - w.1 ≤ C * g := by
  intro C g s e hC hg hse
  have hd : 0 < C * g := mul_pos hC hg
  exact windows_core ((e - s).toNat + 1) (C * g) s e hd hse (by omega)

/-- Witness for C4: the ceiling and granularity of the source
(`C = 1440`, `g = 60`, so `L = 86400`) on the 2.5-day range
`[0, 216000)`. -/
theorem windowPlanner_partition_witness :
    partitions 0 216000 (windowsLoop (1440 * 60) 0 216000) = true ∧
    ∀ w ∈ windowsLoop (1440 * 60) 0 216000, w.2 - w.1 ≤ 1440 * 60 :=
  windowPlanner_partition 1440 60 0 216000 (by decide) (by decide) (by decide)

theorem partitions_mem_lt : ∀ (ws : List (Int × Int)) (s e : Int),
    partitions s e ws = true → ∀ w ∈ ws, w.1 < w.2 := by
  intro ws
  induction ws with
  | nil => intro s e _ w hw; simp at hw
  | cons w0 ws' ih =>
      intro s e h w hw
      simp only [partitions, Bool.and_eq_true, decide_eq_true_eq] at h
      rcases List.mem_cons.mp hw with hw1 | hw2
      · subst hw1; exact h.1.2
      · exact ih w0.2 e h.2 w hw2

/-- Claim C7 (failing evaluation): with user-supplied
`--start-date` after `--end-date` (here `start_date = 10`,
`end_date = 5`), the historical loop does query one window, and that
window has `start > end` — the "never query an inverted or empty
window" invariant is violated by the first iteration before the
`start == end` break can fire. -/
theorem histWindows_invertedWindow_cex :
    histWindows 10 5 = [(10, 5)] ∧ ¬ ((10 : Int) < 5) := by
  decide

/-- Claim C7 (amended): when `start_date ≤ end_date`, every window the
historical cursor loop emits (for any positive step) satisfies
`start < end` — the empty final window is never queried; and under a
strictly increasing wall clock every realtime window satisfies
`start < end` as well. -/
theorem queryWindows_nonempty :
    (∀ delta s e : Int, 0 < delta → s ≤ e →
      ∀ w ∈ windowsLoop delta s e, w.1 < w.2) ∧
    (∀ now : Nat → Int, (∀ j, now j < now (j + 1)) →
      ∀ i, (realtimeWindow now i).1 < (realtimeWindow now i).2) := by
  constructor
  · intro delta s e hd hse w hw
    rcases lt_or_eq_of_le hse with hlt | heq
    · have hcore := windows_core ((e - s).toNat + 1) delta s e hd hlt (by omega)
      exact partitions_mem_lt _ s e hcore.1 w hw
    · subst heq
      have hmin : min (s + delta) s = s := by omega
      have hnil : windowsLoop delta s s = [] := by
        unfold windowsLoop
        rw [genWindowsF_succ, hmin, if_pos rfl]
      rw [hnil] at hw
      simp at hw
  · intro now hmono i
    cases i with
    | zero =>
        have h0 := hmono 0
        simp only [realtimeWindow, realtimeEnd, DELAY, UPDATE_INTERVAL]
        omega
    | succ j =>
        have hj := hmono (j + 1)
        simp only [realtimeWindow, realtimeEnd, DELAY]
        omega

/-- Witness for C7 (amended) at concrete inputs: the window emitted for
`[0, 100)` with the source's step `86400`, and realtime cycle `0` under
the clock `now j = 10 * j`. -/
theorem queryWindows_nonempty_witness :
    ((0 : Int), (100 : Int)).1 < ((0 : Int), (100 : Int)).2 ∧
    (realtimeWindow (fun j => 10 * (j : Int)) 0).1 <
      (realtimeWindow (fun j => 10 * (j : Int)) 0).2 :=
  ⟨queryWindows_nonempty.1 86400 0 100 (by decide) (by decide) (0, 100) (by decide),
   queryWindows_nonempty.2 (fun j => 10 * (j : Int)) (by intro j; push_cast; omega) 0⟩

/-- Claim C5 (failing evaluation): a realtime cycle that starts at wall
time `0` (so `end = -600` after the safety delay) and finishes at wall
time `86410` — elapsed one day and ten seconds, far beyond
`UPDATE_INTERVAL` — sleeps `290` seconds, not the claimed
`max(UPDATE_INTERVAL - elapsed, 0) = 0`: line 333 reads
`duration.seconds`, the day-wrapped seconds component (`10`), not the
total elapsed time. -/
theorem realtimeSleep_dayWrap_cex :
    realtimeSleepTime (0 - DELAY) 86410 = 290 ∧
    max (UPDATE_INTERVAL - 86410) 0 = 0 ∧ (290 : Int) ≠ 0 := by
  decide

/-- Claim C5 (amended): for a cycle that starts at wall time `t0` (so its
query cursor is `end = t0 - DELAY`) and finishes at wall time `now2`,
with elapsed time `now2 - t0` nonnegative and under one day, the
computed sleep is exactly `max(UPDATE_INTERVAL - elapsed, 0)`; in
particular a cycle running longer than `UPDATE_INTERVAL` (but under a
day) sleeps `0`, never a negative amount. -/
theorem realtimeSleep_maxZero_withinDay :
    ∀ t0 now2 : Int, 0 ≤ now2 - t0 → now2 - t0 < 86400 →
      realtimeSleepTime (t0 - DELAY) now2 = max (UPDATE_INTERVAL - (now2 - t0)) 0 ∧
      (UPDATE_INTERVAL ≤ now2 - t0 → realtimeSleepTime (t0 - DELAY) now2 = 0) := by
  intro t0 now2 h0 h1
  have hdur : now2 - DELAY - (t0 - DELAY) = now2 - t0 := by ring
  have hmod : timedeltaSeconds (now2 - t0) = now2 - t0 := Int.emod_eq_of_lt h0 h1
  unfold realtimeSleepTime
  rw [hdur, hmod]
  refine ⟨rfl, fun hge => ?_⟩
  simp only [UPDATE_INTERVAL] at hge ⊢
  omega

/-- Witness for C5 (amended): a cycle from wall time `0` to `350`
(elapsed 350 s > `UPDATE_INTERVAL`) sleeps `0`. -/
theorem realtimeSleep_maxZero_withinDay_witness :
    realtimeSleepTime (0 - DELAY) 350 = max (UPDATE_INTERVAL - (350 - 0)) 0 ∧
    (UPDATE_INTERVAL ≤ 350 - 0 → realtimeSleepTime (0 - DELAY) 350 = 0) :=
  realtimeSleep_maxZero_withinDay 0 350 (by decide) (by decide)

theorem collectRecords_error_of_mem :
    ∀ metrics : List Series,
      (∃ m ∈ metrics, m.dimensions_InstanceId.isSome = true ∧ m.queryResult = none) →
      collectRecords metrics = none := by
  intro metrics
  induction metrics with
  | nil => intro h; obtain ⟨m, hm, _⟩ := h; simp at hm
  | cons m0 rest ih =>
      intro h
      obtain ⟨m, hm, hdim, hq⟩ := h
      rcases List.mem_cons.mp hm with hm0 | hmr
      · subst hm0
        obtain ⟨inst, hinst⟩ := Option.isSome_iff_exists.mp hdim
        simp [collectRecords, hinst, hq]
      · have hrest : collectRecords rest = none := ih ⟨m, hmr, hdim, hq⟩
        unfold collectRecords
        cases hd0 : m0.dimensions_InstanceId with
        | none => exact hrest
        | some inst0 =>
            cases hq0 : m0.queryResult with
            | none => rfl
            | some dps0 => rw [hrest]

theorem runHistGo_allBoto :
    ∀ (fuel : Nat) (env : Nat → List Series) (upload : List CompositeRecord → Int)
      (cursor e : Int) (i : Nat),
      (∀ j, cycleBody (env j) upload = some CycleOutcome.botoCaught) →
      runHistGo fuel env upload cursor e i =
        some ((genWindowsF fuel (calculateIntervalBetweenQueries REPORTING_INTERVAL) cursor e).map
          (fun w => (w, CycleOutcome.botoCaught))) := by
  intro fuel
  induction fuel with
  | zero => intro env upload cursor e i h; rfl
  | succ n ih =>
      intro env upload cursor e i h
      rw [genWindowsF_succ]
      unfold runHistGo
      by_cases hc : cursor = min (cursor + calculateIntervalBetweenQueries REPORTING_INTERVAL) e
      · rw [if_pos hc, if_pos hc]
        rfl
      · rw [if_neg hc, if_neg hc, h i, ih env upload _ e (i + 1) h]
        rfl

/-- Claim C2 (amended): a `BotoServerError` raised while querying any
retained series aborts the whole fetch of that cycle — no partial data
survives, nothing is transposed or uploaded that cycle — but the
scheduler's per-cycle handler catches it, logs it, and the historical
loop still advances through every remaining window. -/
theorem botoError_abortsCycle_loopContinues :
    (∀ (metrics : List Series) (upload : List CompositeRecord → Int),
      (∃ m ∈ metrics, m.dimensions_InstanceId.isSome = true ∧ m.queryResult = none) →
      cycleBody metrics upload = some CycleOutcome.botoCaught) ∧
    (∀ (env : Nat → List Series) (upload : List CompositeRecord → Int) (s e : Int),
      (∀ i, ∃ m ∈ env i, m.dimensions_InstanceId.isSome = true ∧ m.queryResult = none) →
      runHistorical env upload s e =
        some ((histWindows s e).map (fun w => (w, CycleOutcome.botoCaught)))) := by
  constructor
  · intro metrics upload h
    unfold cycleBody queryMetricRecords
    rw [collectRecords_error_of_mem metrics h]
    rfl
  · intro env upload s e h
    have hall : ∀ j, cycleBody (env j) upload = some CycleOutcome.botoCaught := by
      intro j
      unfold cycleBody queryMetricRecords
      rw [collectRecords_error_of_mem (env j) (h j)]
      rfl
    exact runHistGo_allBoto _ env upload s e 0 hall

/-- Witness for C2 (amended): one series whose query raises, in every
cycle, over `[0, 100)`. -/
theorem botoError_abortsCycle_loopContinues_witness :
    runHistorical (fun _ => [⟨"NetworkIn", some "i-1", none⟩]) (fun _ => 202) 0 100 =
      some ((histWindows 0 100).map (fun w => (w, CycleOutcome.botoCaught))) :=
  botoError_abortsCycle_loopContinues.2 (fun _ => [⟨"NetworkIn", some "i-1", none⟩])
    (fun _ => 202) 0 100
    (fun _ => ⟨⟨"NetworkIn", some "i-1", none⟩, List.mem_singleton.mpr rfl, rfl, rfl⟩)

/-- Claim C2 (failing evaluation): one healthy series (`CPUUtilization`,
one datapoint) followed by one series whose query raises.  The claim says
the failing series is skipped and the cycle proceeds to transpose and
upload the healthy series' observation; instead `queryMetricRecords`
returns nothing at all (the exception propagates out of the per-series
loop, discarding the already-retrieved datapoint) and the cycle outcome
is the caught-error branch — no upload happens. -/
theorem queryError_discardsPartialData_cex :
    queryMetricRecords
        [⟨"CPUUtilization", some "i-1", some [⟨60, 5⟩]⟩,
         ⟨"NetworkIn", some "i-1", none⟩] = none ∧
    (cycleBody
        [⟨"CPUUtilization", some "i-1", some [⟨60, 5⟩]⟩,
         ⟨"NetworkIn", some "i-1", none⟩] (fun _ => 202)).map CycleOutcome.isUpload =
      some false := by
  decide

theorem runHistGo_allUploads :
    ∀ (fuel : Nat) (env : Nat → List Series) (upload : List CompositeRecord → Int)
      (cursor e : Int) (i : Nat),
      (∀ j, ∃ recs, cycleBody (env j) upload = some (CycleOutcome.uploaded recs (upload recs))) →
      ∃ tr, runHistGo fuel env upload cursor e i = some tr ∧
        tr.map Prod.fst =
          genWindowsF fuel (calculateIntervalBetweenQueries REPORTING_INTERVAL) cursor e ∧
        ∀ x ∈ tr, ∃ recs, x.2 = CycleOutcome.uploaded recs (upload recs) := by
  intro fuel
  induction fuel with
  | zero =>
      intro env upload cursor e i h
      exact ⟨[], rfl, rfl, by simp⟩
  | succ n ih =>
      intro env upload cursor e i h
      rw [genWindowsF_succ]
      unfold runHistGo
      by_cases hc : cursor = min (cursor + calculateIntervalBetweenQueries REPORTING_INTERVAL) e
      · rw [if_pos hc, if_pos hc]
        exact ⟨[], rfl, rfl, by simp⟩
      · rw [if_neg hc, if_neg hc]
        obtain ⟨recs, hcyc⟩ := h i
        rw [hcyc]
        obtain ⟨tr, htr, hmap, hall⟩ := ih env upload
          (min (cursor + calculateIntervalBetweenQueries REPORTING_INTERVAL) e) e (i + 1) h
        rw [htr]
        refine ⟨_, rfl, ?_, ?_⟩
        · simp only [List.map_cons, hmap]
        · intro x hx
          rcases List.mem_cons.mp hx with hx0 | hxr
          · exact ⟨recs, by rw [hx0]⟩
          · exact hall x hxr

/-- Claim C6: in historical mode, whatever HTTP status each window's
upload returns (202 or not), the loop never raises, never retries, and
advances the cursor through every window: provided each cycle's fetch
and transpose succeed, the run returns a trace whose windows are exactly
the planned `histWindows`, and each window carries exactly one upload
outcome — the single call `upload recs` with its (possibly non-202,
logged) status.  The status value is universally quantified via
`upload`, so failing statuses change nothing in the control flow. -/
theorem uploadFailure_logged_noRetry_cursorAdvances :
    ∀ (env : Nat → List Series) (upload : List CompositeRecord → Int) (s e : Int),
      (∀ i, ∃ mrs recs, queryMetricRecords (env i) = some mrs ∧
        transposeMetrics mrs = some recs) →
      ∃ tr, runHistorical env upload s e = some tr ∧
        tr.map Prod.fst = histWindows s e ∧
        ∀ x ∈ tr, ∃ recs, x.2 = CycleOutcome.uploaded recs (upload recs) := by
  intro env upload s e h
  have hall : ∀ j, ∃ recs,
      cycleBody (env j) upload = some (CycleOutcome.uploaded recs (upload recs)) := by
    intro j
    obtain ⟨mrs, recs, hq, ht⟩ := h j
    refine ⟨recs, ?_⟩
    simp [cycleBody, hq, ht]
  exact runHistGo_allUploads _ env upload s e 0 hall

/-- Witness for C6: one healthy series per cycle and a sink that always
answers 500 (a non-accepted status), over `[0, 100)`. -/
theorem uploadFailure_logged_noRetry_cursorAdvances_witness :
    ∃ tr, runHistorical (fun _ => [⟨"CPUUtilization", some "i-1", some [⟨60, 5⟩]⟩])
        (fun _ => 500) 0 100 = some tr ∧
      tr.map Prod.fst = histWindows 0 100 ∧
      ∀ x ∈ tr, ∃ recs, x.2 = CycleOutcome.uploaded recs 500 :=
  uploadFailure_logged_noRetry_cursorAdvances
    (fun _ => [⟨"CPUUtilization", some "i-1", some [⟨60, 5⟩]⟩]) (fun _ => 500) 0 100
    (fun _ => ⟨[⟨60, "i-1", "CPUUtilization", 5⟩], [], rfl, rfl⟩)

theorem transposeLoopC_erase : ∀ (ms : List MetricRecord) (ct : Int)
    (cr : Option CompositeRecordC) (acc : List CompositeRecordC),
    transposeLoop ms ct (cr.map eraseContribs) (acc.map eraseContribs) =
      (transposeLoopC ms ct cr acc).map (List.map eraseContribs) := by
  intro ms
  induction ms with
  | nil => intro ct cr acc; rfl
  | cons m rest ih =>
      intro ct cr acc
      by_cases h : ct < m.timestamp
      · cases cr with
        | none =>
            simp only [Option.map_none', transposeLoop, transposeLoopC]
            rw [if_pos h, if_pos h]
            exact ih m.timestamp (some ⟨m.timestamp, m.instance_,
              setField [] m.metric_name m.metric_value, [m]⟩) acc
        | some r =>
            simp only [Option.map_some', transposeLoop, transposeLoopC]
            rw [if_pos h, if_pos h]
            have := ih m.timestamp (some ⟨m.timestamp, m.instance_,
              setField [] m.metric_name m.metric_value, [m]⟩) (acc ++ [r])
            simpa [List.map_append, eraseContribs] using this
      · cases cr with
        | none =>
            simp only [Option.map_none', transposeLoop, transposeLoopC]
            rw [if_neg h, if_neg h]
            rfl
        | some r =>
            simp only [Option.map_some', transposeLoop, transposeLoopC]
            rw [if_neg h, if_neg h]
            exact ih ct (some ⟨r.timestamp, r.instance_,
              setField r.fields m.metric_name m.metric_value, r.contribs ++ [m]⟩) acc

theorem transposeLoopC_contribs :
    ∀ (ms : List MetricRecord) (ct : Int) (r : CompositeRecordC)
      (acc recs : List CompositeRecordC),
      sortedByTime ms = true →
      (∀ m ∈ ms, ct ≤ m.timestamp) →
      (∀ a ∈ ms, ∀ b ∈ ms, a.timestamp = b.timestamp → a.instance_ = b.instance_) →
      (∀ m ∈ ms, m.timestamp = r.timestamp → m.instance_ = r.instance_) →
      r.timestamp = ct →
      (∀ c ∈ r.contribs, c.timestamp = r.timestamp ∧ c.instance_ = r.instance_) →
      (∀ x ∈ acc, ∀ c ∈ x.contribs, c.timestamp = x.timestamp ∧ c.instance_ = x.instance_) →
      transposeLoopC ms ct (some r) acc = some recs →
      ∀ x ∈ recs, ∀ c ∈ x.contribs, c.timestamp = x.timestamp ∧ c.instance_ = x.instance_ := by
  intro ms
  induction ms with
  | nil =>
      intro ct r acc recs _ _ _ _ _ _ hacc hrun
      have heq : acc = recs := Option.some.inj hrun
      subst heq
      exact hacc
  | cons m rest ih =>
      intro ct r acc recs hs hge huni hlink hts hcr hacc hrun
      obtain ⟨hs', hhead⟩ := sortedByTime_cons hs
      by_cases h : ct < m.timestamp
      · -- the sample opens a new record; the previous one is flushed
        rw [show transposeLoopC (m :: rest) ct (some r) acc =
            transposeLoopC rest m.timestamp
              (some ⟨m.timestamp, m.instance_,
                setField [] m.metric_name m.metric_value, [m]⟩) (acc ++ [r]) from by
          simp [transposeLoopC, h]] at hrun
        refine ih m.timestamp
          ⟨m.timestamp, m.instance_, setField [] m.metric_name m.metric_value, [m]⟩
          (acc ++ [r]) recs hs' hhead ?_ ?_ rfl ?_ ?_ hrun
        · intro a ha b hb hab
          exact huni a (List.mem_cons_of_mem m ha) b (List.mem_cons_of_mem m hb) hab
        · intro x hx hxe
          exact huni x (List.mem_cons_of_mem m hx) m (List.mem_cons_self m rest) hxe
        · intro c hc
          have : c = m := List.mem_singleton.mp hc
          subst this
          exact ⟨rfl, rfl⟩
        · intro x hx
          rcases List.mem_append.mp hx with hxa | hxr
          · exact hacc x hxa
          · have : x = r := List.mem_singleton.mp hxr
            subst this
            exact hcr
      · -- the sample is assigned into the current record
        have hmle : m.timestamp ≤ ct := not_lt.mp h
        have hmeq : m.timestamp = ct := le_antisymm hmle (hge m (List.mem_cons_self m rest))
        rw [show transposeLoopC (m :: rest) ct (some r) acc =
            transposeLoopC rest ct
              (some ⟨r.timestamp, r.instance_,
                setField r.fields m.metric_name m.metric_value, r.contribs ++ [m]⟩) acc from by
          simp [transposeLoopC, h]] at hrun
        refine ih ct
          ⟨r.timestamp, r.instance_,
            setField r.fields m.metric_name m.metric_value, r.contribs ++ [m]⟩
          acc recs hs' ?_ ?_ ?_ hts ?_ hacc hrun
        · intro x hx
          exact le_trans (hge m (List.mem_cons_self m rest)) (hhead x hx)
        · intro a ha b hb hab
          exact huni a (List.mem_cons_of_mem m ha) b (List.mem_cons_of_mem m hb) hab
        · intro x hx hxe
          exact hlink x (List.mem_cons_of_mem m hx) hxe
        · intro c hc
          rcases List.mem_append.mp hc with hco | hcm
          · exact hcr c hco
          · have : c = m := List.mem_singleton.mp hcm
            subst this
            refine ⟨hmeq.trans hts.symm, ?_⟩
            exact hlink c (List.mem_cons_self c rest) (hmeq.trans hts.symm)

/-- Claim C3 (amended): the instrumented transposer projects onto the
source's `transposeMetrics` (first conjunct: forgetting the recorded
contributors yields exactly the source function's output), and for an
input that is sorted by timestamp and in which observations sharing a
timestamp share an instance, every observation that contributed a field
to a composite record carries that record's own timestamp and instance
(second conjunct). -/
theorem transpose_contributorsMatch :
    (∀ ms : List MetricRecord,
      (transposeMetricsC ms).map (List.map eraseContribs) = transposeMetrics ms) ∧
    (∀ (ms : List MetricRecord) (recs : List CompositeRecordC),
      sortedByTime ms = true → uniformInst ms → transposeMetricsC ms = some recs →
      ∀ x ∈ recs, ∀ c ∈ x.contribs,
        c.timestamp = x.timestamp ∧ c.instance_ = x.instance_) := by
  constructor
  · intro ms
    exact (transposeLoopC_erase ms 0 none []).symm
  · intro ms recs hs hu hrun
    cases ms with
    | nil =>
        have heq : ([] : List CompositeRecordC) = recs := Option.some.inj hrun
        subst heq
        intro x hx
        exact absurd hx (by simp)
    | cons m rest =>
        by_cases h : (0 : Int) < m.timestamp
        · obtain ⟨hs', hhead⟩ := sortedByTime_cons hs
          rw [show transposeMetricsC (m :: rest) =
              transposeLoopC rest m.timestamp
                (some ⟨m.timestamp, m.instance_,
                  setField [] m.metric_name m.metric_value, [m]⟩) [] from by
            simp [transposeMetricsC, transposeLoopC, h]] at hrun
          refine transposeLoopC_contribs rest m.timestamp
            ⟨m.timestamp, m.instance_, setField [] m.metric_name m.metric_value, [m]⟩
            [] recs hs' hhead ?_ ?_ rfl ?_ ?_ hrun
          · intro a ha b hb hab
            exact hu a (List.mem_cons_of_mem m ha) b (List.mem_cons_of_mem m hb) hab
          · intro x hx hxe
            exact hu x (List.mem_cons_of_mem m hx) m (List.mem_cons_self m rest) hxe
          · intro c hc
            have : c = m := List.mem_singleton.mp hc
            subst this
            exact ⟨rfl, rfl⟩
          · intro x hx
            exact absurd hx (by simp)
        · exfalso
          simp [transposeMetricsC, transposeLoopC, h] at hrun

/-- Witness for C3 (amended) on a sorted, instance-uniform input. -/
theorem transpose_contributorsMatch_witness :
    ((transposeMetricsC [⟨1, "i1", "CPU", 10⟩, ⟨2, "i1", "Net", 5⟩]).map
        (List.map eraseContribs) =
      transposeMetrics [⟨1, "i1", "CPU", 10⟩, ⟨2, "i1", "Net", 5⟩]) ∧
    (∀ x ∈ [(⟨1, "i1", [("CPU", 10)], [⟨1, "i1", "CPU", 10⟩]⟩ : CompositeRecordC)],
      ∀ c ∈ x.contribs, c.timestamp = x.timestamp ∧ c.instance_ = x.instance_) :=
  ⟨transpose_contributorsMatch.1 [⟨1, "i1", "CPU", 10⟩, ⟨2, "i1", "Net", 5⟩],
   transpose_contributorsMatch.2 [⟨1, "i1", "CPU", 10⟩, ⟨2, "i1", "Net", 5⟩]
     [⟨1, "i1", [("CPU", 10)], [⟨1, "i1", "CPU", 10⟩]⟩]
     (by decide) (by decide) (by decide)⟩

/-- Claim C3 (failing evaluation): on the (unsorted) input
`[(2,i1,CPU,1), (1,i2,Net,5), (3,i1,CPU,2)]` the record emitted for
timestamp `2` / instance `i1` received its `Net` field from the
observation `(1, i2, Net, 5)`, whose timestamp (`1 ≠ 2`) and instance
(`i2 ≠ i1`) both differ from the record's own fields — the claim's
"for every input list" fails (and sorted inputs mixing instances at one
timestamp fail the instance half the same way, cf. spec §9). -/
theorem transpose_contributorMismatch_cex :
    ¬ (∀ x ∈ (transposeMetricsC
          [⟨2, "i1", "CPU", 1⟩, ⟨1, "i2", "Net", 5⟩, ⟨3, "i1", "CPU", 2⟩]).getD [],
        ∀ c ∈ x.contribs, c.timestamp = x.timestamp ∧ c.instance_ = x.instance_) := by
  decide

theorem transposeLoop_lookup :
    ∀ (ms : List MetricRecord) (ct : Int) (r : CompositeRecord)
      (acc recs : List CompositeRecord),
      sortedByTime ms = true →
      (∀ m ∈ ms, ct ≤ m.timestamp) →
      r.timestamp = ct →
      transposeLoop ms ct (some r) acc = some recs →
      ∀ x ∈ recs, x ∈ acc ∨
        (∀ n v, getField n x.fields = some v →
          (x.timestamp = ct ∧
            lastValueFrom ct n ms (getField n r.fields) = some v) ∨
          (ct < x.timestamp ∧ lastValue x.timestamp n ms = some v)) := by
  intro ms
  induction ms with
  | nil =>
      intro ct r acc recs _ _ _ hrun x hx
      have heq : acc = recs := Option.some.inj hrun
      subst heq
      exact Or.inl hx
  | cons m rest ih =>
      intro ct r acc recs hs hge hts hrun x hx
      obtain ⟨hs', hhead⟩ := sortedByTime_cons hs
      by_cases h : ct < m.timestamp
      · -- the sample opens a new record, freezing `r` into the output
        rw [show transposeLoop (m :: rest) ct (some r) acc =
            transposeLoop rest m.timestamp
              (some ⟨m.timestamp, m.instance_, setField [] m.metric_name m.metric_value⟩)
              (acc ++ [r]) from by simp [transposeLoop, h]] at hrun
        have hres := ih m.timestamp
          ⟨m.timestamp, m.instance_, setField [] m.metric_name m.metric_value⟩
          (acc ++ [r]) recs hs' hhead rfl hrun x hx
        rcases hres with hmem | hq
        · rcases List.mem_append.mp hmem with hxa | hxr
          · exact Or.inl hxa
          · have hxr' : x = r := List.mem_singleton.mp hxr
            subst hxr'
            refine Or.inr (fun n v hget => Or.inl ⟨hts, ?_⟩)
            have hnm : ∀ y ∈ m :: rest, y.timestamp ≠ ct := by
              intro y hy
              rcases List.mem_cons.mp hy with h1 | h2
              · subst h1; omega
              · have := hhead y h2; omega
            rw [lastValueFrom_nomatch hnm (getField n x.fields)]
            exact hget
        · refine Or.inr (fun n v hget => ?_)
          rcases hq n v hget with ⟨hxts, hlv⟩ | ⟨hlt2, hlv⟩
          · refine Or.inr ⟨by omega, ?_⟩
            exact lastValue_cons_open (Or.inl ⟨hxts, hlv⟩)
          · refine Or.inr ⟨by omega, ?_⟩
            exact lastValue_cons_open (Or.inr ⟨hlt2, hlv⟩)
      · -- the sample is assigned into the current record
        have hmeq : m.timestamp = ct :=
          le_antisymm (not_lt.mp h) (hge m (List.mem_cons_self m rest))
        rw [show transposeLoop (m :: rest) ct (some r) acc =
            transposeLoop rest ct
              (some ⟨r.timestamp, r.instance_,
                setField r.fields m.metric_name m.metric_value⟩) acc from by
          simp [transposeLoop, h]] at hrun
        have hres := ih ct
          ⟨r.timestamp, r.instance_, setField r.fields m.metric_name m.metric_value⟩
          acc recs hs'
          (fun y hy => le_trans (hge m (List.mem_cons_self m rest)) (hhead y hy))
          hts hrun x hx
        rcases hres with hmem | hq
        · exact Or.inl hmem
        · refine Or.inr (fun n v hget => ?_)
          rcases hq n v hget with ⟨hxts, hlv⟩ | ⟨hlt2, hlv⟩
          · refine Or.inl ⟨hxts, ?_⟩
            rw [lastValueFrom_cons_assign rest n r.fields hmeq]
            exact hlv
          · refine Or.inr ⟨hlt2, ?_⟩
            rw [lastValue_cons_skip n rest (by omega)]
            exact hlv

theorem transposeLoop_ts_pairwise :
    ∀ (ms : List MetricRecord) (ct : Int) (r : CompositeRecord)
      (acc recs : List CompositeRecord),
      (acc.map (fun x => x.timestamp)).Pairwise (· < ·) →
      (∀ x ∈ acc, x.timestamp < ct) →
      r.timestamp = ct →
      transposeLoop ms ct (some r) acc = some recs →
      (recs.map (fun x => x.timestamp)).Pairwise (· < ·) := by
  intro ms
  induction ms with
  | nil =>
      intro ct r acc recs hpw _ _ hrun
      have heq : acc = recs := Option.some.inj hrun
      subst heq
      exact hpw
  | cons m rest ih =>
      intro ct r acc recs hpw hlt hts hrun
      by_cases h : ct < m.timestamp
      · rw [show transposeLoop (m :: rest) ct (some r) acc =
            transposeLoop rest m.timestamp
              (some ⟨m.timestamp, m.instance_, setField [] m.metric_name m.metric_value⟩)
              (acc ++ [r]) from by simp [transposeLoop, h]] at hrun
        refine ih m.timestamp _ (acc ++ [r]) recs ?_ ?_ rfl hrun
        · rw [List.map_append]
          refine List.pairwise_append.mpr ⟨hpw, by simp, ?_⟩
          intro a ha b hb
          simp only [List.mem_map] at ha
          simp only [List.map_cons, List.map_nil, List.mem_singleton] at hb
          obtain ⟨y, hy, hya⟩ := ha
          subst hb
          have := hlt y hy
          omega
        · intro y hy
          rcases List.mem_append.mp hy with hya | hyr
          · have := hlt y hya; omega
          · have : y = r := List.mem_singleton.mp hyr
            subst this; omega
      · rw [show transposeLoop (m :: rest) ct (some r) acc =
            transposeLoop rest ct
              (some ⟨r.timestamp, r.instance_,
                setField r.fields m.metric_name m.metric_value⟩) acc from by
          simp [transposeLoop, h]] at hrun
        exact ih ct ⟨r.timestamp, r.instance_,
          setField r.fields m.metric_name m.metric_value⟩ acc recs hpw hlt hts hrun

/-- Claim C10 (amended): for an input sorted by timestamp (the documented
precondition of `transposeMetrics`): duplicates raise no error (with
post-epoch timestamps the result is `some _`); duplicates create no
extra record (the emitted records' timestamps are strictly increasing,
so there is at most one record per timestamp); and every field of every
emitted record holds exactly the value of the chronologically last
observation with that record's timestamp and that metric name — the
later duplicate overwrites the earlier one. -/
theorem transpose_lastDuplicateWins :
    ∀ ms : List MetricRecord, sortedByTime ms = true →
      ((∀ m ∈ ms, 0 < m.timestamp) → (transposeMetrics ms).isSome = true) ∧
      (∀ recs, transposeMetrics ms = some recs →
        ((recs.map (fun x => x.timestamp)).Pairwise (· < ·)) ∧
        ∀ x ∈ recs, ∀ n v, getField n x.fields = some v →
          lastValue x.timestamp n ms = some v) := by
  intro ms hs
  constructor
  · intro hpos
    cases ms with
    | nil => rfl
    | cons m rest =>
        unfold transposeMetrics transposeLoop
        rw [if_pos (hpos m (List.mem_cons_self m rest))]
        exact transposeLoop_some_isSome _ _ _ _
  · intro recs hrun
    cases ms with
    | nil =>
        have heq : ([] : List CompositeRecord) = recs := Option.some.inj hrun
        subst heq
        exact ⟨by simp, by simp⟩
    | cons m rest =>
        by_cases h : (0 : Int) < m.timestamp
        · obtain ⟨hs', hhead⟩ := sortedByTime_cons hs
          rw [show transposeMetrics (m :: rest) =
              transposeLoop rest m.timestamp
                (some ⟨m.timestamp, m.instance_,
                  setField [] m.metric_name m.metric_value⟩) [] from by
            simp [transposeMetrics, transposeLoop, h]] at hrun
          constructor
          · exact transposeLoop_ts_pairwise rest m.timestamp _ [] recs
              (by simp) (by simp) rfl hrun
          · intro x hx n v hget
            have hres := transposeLoop_lookup rest m.timestamp
              ⟨m.timestamp, m.instance_, setField [] m.metric_name m.metric_value⟩
              [] recs hs' hhead rfl hrun x hx
            rcases hres with hmem | hq
            · exact absurd hmem (by simp)
            · rcases hq n v hget with ⟨hxts, hlv⟩ | ⟨hlt2, hlv⟩
              · exact lastValue_cons_open (Or.inl ⟨hxts, hlv⟩)
              · exact lastValue_cons_open (Or.inr ⟨hlt2, hlv⟩)
        · exfalso
          simp [transposeMetrics, transposeLoop, h] at hrun

/-- Witness for C10 (amended): a sorted input with a duplicate
`(timestamp 1, "CPU")` pair — the emitted record holds the later value
`9`. -/
theorem transpose_lastDuplicateWins_witness :
    ((∀ m ∈ ([⟨1, "i", "CPU", 7⟩, ⟨1, "i", "CPU", 9⟩, ⟨2, "i", "X", 1⟩] :
        List MetricRecord), 0 < m.timestamp) →
      (transposeMetrics
        [⟨1, "i", "CPU", 7⟩, ⟨1, "i", "CPU", 9⟩, ⟨2, "i", "X", 1⟩]).isSome = true) ∧
    (∀ recs, transposeMetrics
        [⟨1, "i", "CPU", 7⟩, ⟨1, "i", "CPU", 9⟩, ⟨2, "i", "X", 1⟩] = some recs →
      ((recs.map (fun x => x.timestamp)).Pairwise (· < ·)) ∧
      ∀ x ∈ recs, ∀ n v, getField n x.fields = some v →
        lastValue x.timestamp n
          [⟨1, "i", "CPU", 7⟩, ⟨1, "i", "CPU", 9⟩, ⟨2, "i", "X", 1⟩] = some v) :=
  transpose_lastDuplicateWins
    [⟨1, "i", "CPU", 7⟩, ⟨1, "i", "CPU", 9⟩, ⟨2, "i", "X", 1⟩] (by decide)

/-- Claim C10 (failing evaluation): on the unsorted input
`[(1,i,CPU,7), (2,i,Net,1), (1,i,CPU,9), (3,i,Z,0)]` — which contains
the duplicate pair `(timestamp 1, "CPU")` — the record emitted for
timestamp `1` holds `CPU = 7`, not the last value `9` seen for that
pair: because `current_time` never decreases, the later duplicate is
written into the timestamp-2 record instead.  The claim therefore fails
without the sortedness precondition. -/
theorem transpose_duplicate_unsorted_cex :
    ¬ (∀ x ∈ (transposeMetrics
          [⟨1, "i", "CPU", 7⟩, ⟨2, "i", "Net", 1⟩,
           ⟨1, "i", "CPU", 9⟩, ⟨3, "i", "Z", 0⟩]).getD [],
        ∀ n v, getField n x.fields = some v →
          lastValue x.timestamp n
            [⟨1, "i", "CPU", 7⟩, ⟨2, "i", "Net", 1⟩,
             ⟨1, "i", "CPU", 9⟩, ⟨3, "i", "Z", 0⟩] = some v) :=
  fun hforall =>
    absurd (hforall ⟨1, "i", [("CPU", 7)]⟩ (by decide) "CPU" 7 rfl) (by decide)
